import Mathlib

/-!
Verification of the lilypads object pool: a shallow embedding of the
`AcceleratedBitmap` (src/bitmap.rs), the `Pond` pool (src/pondaos.rs), the
`FullFlatBinaryTree` occupancy index (src/binary_tree.rs) and the
reference-counting `NodeField` layer (src/lib.rs), together with theorems
about the properties stated in the design document.

Machine integers (`u64`/`usize`) are modelled as `Nat` with explicit
truncation at `2 ^ 64` where the Rust code can overflow; `Vec<T>` is a
`List`; `MaybeUninit<T>` slots are `Option` values (`none` = uninitialized).
Rust indexing panics are modelled either via `Option`-returning checked
variants (where a claim is about panics) or, in the total functions, via
`List.getD`/`List.set` (which read `0`/do nothing out of range); every
theorem that relies on a total read supplies the bounds that make it agree
with the source.
-/

set_option maxRecDepth 100000

namespace Lilypads

/-- All 64 bits set: the value of `!0: u64`. -/
def MAXW : Nat := 2 ^ 64 - 1

/-- The constant `SET_FULL = !0 >> 32` from src/bitmap.rs: low 32 bits set. -/
def SET_FULL : Nat := 2 ^ 32 - 1

/-- The constant `UNSET_FULL = !0 << 32` from src/bitmap.rs: high 32 bits set. -/
def UNSET_FULL : Nat := (2 ^ 32 - 1) * 2 ^ 32

/-- Bitwise complement of a 64-bit word (`!x` on `u64`), for `x ≤ MAXW`. -/
def compl64 (x : Nat) : Nat := MAXW ^^^ x

/-- Rust `Vec::resize(n, d)`: truncate or pad with `d` to length exactly `n`. -/
def listResize (l : List α) (n : Nat) (d : α) : List α :=
  l.take n ++ List.replicate (n - l.length) d

/-- Rust `Vec::swap(i, j)` on the model lists (used by `Pond::defrag`). -/
def listSwap (l : List α) (i j : Nat) (d : α) : List α :=
  (l.set i (l.getD j d)).set j (l.getD i d)

/-- Fuelled count of trailing one bits; 64 fuel suffices for any `u64`. -/
def trailingOnesAux : Nat → Nat → Nat
  | _, 0 => 0
  | x, fuel + 1 => if x % 2 = 1 then trailingOnesAux (x / 2) fuel + 1 else 0

/-- Rust `u64::trailing_ones` for words below `2 ^ 64`. -/
def trailingOnes (x : Nat) : Nat := trailingOnesAux x 64

/-- Semantics of `x.trailing_ones()` after a cast `as u32` of a wider word. -/
def trailingOnes32 (x : Nat) : Nat := trailingOnes (x % 2 ^ 32)

/-- The accelerated bitmap of src/bitmap.rs: a base vector of `u64` words and
a stack of acceleration layers whose words carry a full-tracking half (low
32 bits) and an empty-tracking half (high 32 bits). -/
structure AcceleratedBitmap where
  base : List Nat
  accel_layers : List (List Nat)
deriving Repr, DecidableEq

namespace AcceleratedBitmap

/-- Model of `AcceleratedBitmap::new(layers)`. -/
def new (layers : Nat) : AcceleratedBitmap :=
  ⟨[], List.replicate layers []⟩

/-- The per-layer body of `AcceleratedBitmap::resize`: each iteration
recomputes `offset = size & ACCEL_MASK`, shifts the running word count and
masks the word at that count, exactly as the source loop does. -/
def resizeLayers : List (List Nat) → Nat → Nat → List (List Nat)
  | [], _, _ => []
  | layer :: rest, size, fwc0 =>
    let offset := size &&& 31
    let fwc := fwc0 >>> 5
    let layer1 := listResize layer (size + 1) 0
    let set_mask := SET_FULL >>> (32 - offset)
    let unset_mask := (UNSET_FULL >>> (32 - offset)) &&& UNSET_FULL
    let layer2 := layer1.set fwc ((layer1.getD fwc 0) &&& (unset_mask ||| set_mask))
    layer2 :: resizeLayers rest size fwc

/-- Model of `AcceleratedBitmap::resize(size)`. -/
def resize (b : AcceleratedBitmap) (size : Nat) : AcceleratedBitmap :=
  let offset := size &&& 63
  let fwc := size >>> 6
  let base1 := listResize b.base (fwc + 1) 0
  let base2 := base1.set fwc ((base1.getD fwc 0) &&& compl64 ((MAXW <<< offset) &&& MAXW))
  ⟨base2, resizeLayers b.accel_layers size fwc⟩

/-- Write the full-tracking bit (at `off`) and the empty-tracking bit (at
`off + 32`) of an acceleration word, as the two if-statements of
`AcceleratedBitmap::set` do. -/
def writePathBits (w off : Nat) (f e : Bool) : Nat :=
  let bit := 1 <<< off
  let w1 := if f then w ||| bit else w &&& compl64 bit
  if e then w1 ||| (bit <<< 32) else w1 &&& compl64 (bit <<< 32)

/-- The layer loop of `AcceleratedBitmap::set`: `offset` is taken from the
index before the shift, the layer word is addressed after it. -/
def setLayers : List (List Nat) → Nat → Bool → Bool → List (List Nat)
  | [], _, _, _ => []
  | layer :: rest, idx, f, e =>
    let off := idx &&& 31
    let widx := idx >>> 5
    let w := layer.getD widx 0
    let w1 := writePathBits w off f e
    let f1 := decide (w1 &&& SET_FULL = SET_FULL)
    let e1 := decide (w1 &&& UNSET_FULL = UNSET_FULL)
    layer.set widx w1 :: setLayers rest widx f1 e1

/-- Model of `AcceleratedBitmap::set(idx, value)`. -/
def set (b : AcceleratedBitmap) (idx : Nat) (value : Bool) : AcceleratedBitmap :=
  let off := idx &&& 63
  let bit := 1 <<< off
  let widx := idx >>> 6
  let w := b.base.getD widx 0
  let w1 := if value then w ||| bit else w &&& compl64 bit
  ⟨b.base.set widx w1, setLayers b.accel_layers widx (decide (w1 = MAXW)) (decide (w1 = 0))⟩

/-- Model of `AcceleratedBitmap::is_set(idx)` (total: an out-of-range word reads 0). -/
def is_set (b : AcceleratedBitmap) (idx : Nat) : Bool :=
  decide ((b.base.getD (idx >>> 6) 0) &&& (1 <<< (idx &&& 63)) ≠ 0)

/-- Model of `AcceleratedBitmap::is_set` with the bound check the Rust `Vec` index
performs: `none` models the out-of-range panic. -/
def is_set_checked (b : AcceleratedBitmap) (idx : Nat) : Option Bool :=
  if idx >>> 6 < b.base.length then some (b.is_set idx) else none

/-- The scan of the topmost acceleration layer in
`AcceleratedBitmap::first_free`. -/
def scanTop : List Nat → Nat → Option Nat
  | [], _ => none
  | w :: rest, k =>
    if w ≠ SET_FULL then some ((k <<< 5) + trailingOnes w) else scanTop rest (k + 1)

/-- The descent through the remaining layers of
`AcceleratedBitmap::first_free`: note the `as u32` cast on each word. -/
def descend : List (List Nat) → Nat → Nat
  | [], idx => idx
  | layer :: rest, idx => descend rest ((idx <<< 5) + trailingOnes32 (layer.getD idx 0))

/-- Model of `AcceleratedBitmap::first_free()`.  The final step casts the 64-bit base
word to `u32` before `trailing_ones`, exactly as the source does. -/
def first_free (b : AcceleratedBitmap) : Option Nat :=
  match scanTop (b.accel_layers.getLastD []) 0 with
  | none => none
  | some idx0 =>
    let idx := descend b.accel_layers.dropLast.reverse idx0
    some ((idx <<< 6) + trailingOnes32 (b.base.getD idx 0))

/-- Coherence of the summary bits along the path of bit `idx`: each layer
word carries, at this index's position, exactly the full/empty flags that
`set` would recompute from the level below.  `f`/`e` are the flags of the
level below the current layer. -/
def layersNormal : List (List Nat) → Nat → Bool → Bool → Bool
  | [], _, _, _ => true
  | layer :: rest, idx, f, e =>
    let off := idx &&& 31
    let widx := idx >>> 5
    let w := layer.getD widx 0
    (w.testBit off == f) && (w.testBit (off + 32) == e) &&
      layersNormal rest widx (decide (w &&& SET_FULL = SET_FULL))
        (decide (w &&& UNSET_FULL = UNSET_FULL))

/-- Path coherence seeded from the base word of bit `idx`. -/
def pathNormal (b : AcceleratedBitmap) (idx : Nat) : Bool :=
  let widx := idx >>> 6
  let w := b.base.getD widx 0
  layersNormal b.accel_layers widx (decide (w = MAXW)) (decide (w = 0))

/-- All words of a list are genuine 64-bit values. -/
def wordsOk (l : List Nat) : Bool := l.all (· < 2 ^ 64)

/-- Structural well-formedness of a bitmap that indexes `len` slots, as
established by `resize len`: word counts match and words are 64-bit. -/
def wf (b : AcceleratedBitmap) (len : Nat) : Bool :=
  (b.base.length == len >>> 6 + 1) && wordsOk b.base &&
    (b.accel_layers.length == 3) &&
    b.accel_layers.all (fun l => (l.length == len + 1) && wordsOk l)

end AcceleratedBitmap

/-- The pool of src/pondaos.rs: a backing vector of `MaybeUninit<T>` cells
(`none` = uninitialized) and the occupancy bitmap.  `Pond::new` uses
`AcceleratedBitmap::new(3)`. -/
structure Pond (α : Type) where
  data : List (Option α)
  bitmap : AcceleratedBitmap
deriving Repr, DecidableEq

namespace Pond

/-- Model of `Pond::new()`. -/
def new : Pond α := ⟨[], AcceleratedBitmap.new 3⟩

/-- Model of `Pond::len()`. -/
def len (p : Pond α) : Nat := p.data.length

/-- Model of `Pond::is_occupied(idx)`: the `idx < self.data.len()` guard keeps the
bitmap from ever being consulted out of range. -/
def is_occupied (p : Pond α) (idx : Nat) : Bool :=
  if idx < p.data.length then p.bitmap.is_set idx else false

/-- Model of `Pond::is_occupied` with the panic of `AcceleratedBitmap::is_set` made
observable (`none` = panic). -/
def is_occupied_checked (p : Pond α) (idx : Nat) : Option Bool :=
  if idx < p.data.length then p.bitmap.is_set_checked idx else some false

/-- Model of `Pond::resize(size)`: on a shrink the occupied cells past `size` are
dropped (no observable effect on the model) and the vector truncated; on a
grow `set_len` exposes uninitialized cells. -/
def resize (p : Pond α) (size : Nat) : Pond α :=
  let data :=
    if size ≤ p.data.length then p.data.take size
    else p.data ++ List.replicate (size - p.data.length) none
  ⟨data, p.bitmap.resize size⟩

/-- Model of `Pond::reserve()`: first free index (or `len`), growing by one slot when
it is not strictly below the current length, then `mark_reserved`. -/
def reserve (p : Pond α) : Nat × Pond α :=
  let idx := (p.bitmap.first_free).getD p.len
  let p1 := if p.len ≤ idx then p.resize (idx + 1) else p
  (idx, ⟨p1.data, p1.bitmap.set idx true⟩)

/-- Model of `Pond::insert(data)`. -/
def insert (p : Pond α) (v : α) : Nat × Pond α :=
  let r := p.reserve
  (r.1, ⟨r.2.data.set r.1 (some v), r.2.bitmap⟩)

/-- Model of `Pond::get(idx)`: `assume_init_ref` is modelled by reading the stored
optional value (which is `some` whenever the occupancy invariant holds). -/
def get (p : Pond α) (idx : Nat) : Option α :=
  if p.is_occupied idx then p.data.getD idx none else none

/-- Model of `Pond::get_mut(idx)` returns a reference to the same value as `get`. -/
def get_mut (p : Pond α) (idx : Nat) : Option α :=
  if p.is_occupied idx then p.data.getD idx none else none

/-- Model of `Pond::write(idx, new_data)`. -/
def write (p : Pond α) (idx : Nat) (v : α) : Option α × Pond α :=
  let p1 := if p.len ≤ idx then p.resize (idx + 1) else p
  let old := if p1.is_occupied idx then p1.data.getD idx none else none
  (old, ⟨p1.data.set idx (some v), p1.bitmap.set idx true⟩)

/-- Model of `Pond::free(idx)`: `assume_init_read` moves the value out, leaving the
cell's bytes in place, so the data vector is unchanged. -/
def free (p : Pond α) (idx : Nat) : Option α × Pond α :=
  if p.is_occupied idx then
    (p.data.getD idx none, ⟨p.data, p.bitmap.set idx false⟩)
  else (none, p)

/-- Model of `Pond::free` with the bitmap index panics made observable.  The checked
variant of `AcceleratedBitmap::set` requires every touched word to exist. -/
def setLayersChecked : List (List Nat) → Nat → Bool → Bool → Option (List (List Nat))
  | [], _, _, _ => some []
  | layer :: rest, idx, f, e =>
    let off := idx &&& 31
    let widx := idx >>> 5
    if widx < layer.length then
      let w := layer.getD widx 0
      let w1 := AcceleratedBitmap.writePathBits w off f e
      (setLayersChecked rest widx (decide (w1 &&& SET_FULL = SET_FULL))
        (decide (w1 &&& UNSET_FULL = UNSET_FULL))).map (layer.set widx w1 :: ·)
    else none

/-- Model of `AcceleratedBitmap::set` with bound checks (`none` = panic). -/
def set_checked (b : AcceleratedBitmap) (idx : Nat) (value : Bool) : Option AcceleratedBitmap :=
  let off := idx &&& 63
  let bit := 1 <<< off
  let widx := idx >>> 6
  if widx < b.base.length then
    let w := b.base.getD widx 0
    let w1 := if value then w ||| bit else w &&& compl64 bit
    (setLayersChecked b.accel_layers widx (decide (w1 = MAXW)) (decide (w1 = 0))).map
      (⟨b.base.set widx w1, ·⟩)
  else none

/-- Model of `Pond::free` in the panic-observing model. -/
def free_checked (p : Pond α) (idx : Nat) : Option (Option α × Pond α) :=
  match p.is_occupied_checked idx with
  | none => none
  | some false => some (none, p)
  | some true =>
    (set_checked p.bitmap idx false).map fun b => (p.data.getD idx none, ⟨p.data, b⟩)

/-- Model of `Pond::next_index()`. -/
def next_index (p : Pond α) : Nat := (p.bitmap.first_free).getD p.len

/-- The inner descending scan of `Pond::defrag`: the largest set index in
`[lo, hi)`, or `none` when the loop variable `full` would keep its previous
value `last_full` (which breaks the outer loop). -/
def findFull (b : AcceleratedBitmap) (lo : Nat) : Nat → Option Nat
  | 0 => none
  | hi + 1 =>
    if hi + 1 ≤ lo then none
    else if b.is_set hi then some hi else findFull b lo hi

/-- The outer loop of `Pond::defrag`.  `last_full` strictly decreases on
every continuing iteration, so `len + 1` fuel is never exhausted. -/
def defragLoop : Nat → Pond α → List (Nat × Nat) → Nat → List (Nat × Nat) × Pond α
  | 0, p, remap, _ => (remap, p)
  | fuel + 1, p, remap, last_full =>
    match p.bitmap.first_free with
    | none => (remap, p)
    | some free =>
      match findFull p.bitmap free last_full with
      | none => (remap, p)
      | some full =>
        defragLoop fuel
          ⟨listSwap p.data free full none, (p.bitmap.set full false).set free true⟩
          (remap ++ [(full, free)]) full

/-- Model of `Pond::defrag()`: the remap is kept in insertion order (`(old, new)`). -/
def defrag (p : Pond α) : List (Nat × Nat) × Pond α :=
  if p.len = 0 then ([], p) else defragLoop (p.len + 1) p [] p.len

/-- Model of `Pond::trim()`. -/
def trim (p : Pond α) : List (Nat × Nat) × Pond α :=
  let r := p.defrag
  match r.2.bitmap.first_free with
  | some first_free => (r.1, r.2.resize first_free)
  | none => r

/-- Number of occupied slots (the popcount of the occupancy bits). -/
def occCount (p : Pond α) : Nat :=
  (List.range p.len).countP (fun i => p.is_occupied i)

/-- The values stored at occupied indices, in ascending index order. -/
def occValues (p : Pond α) : List α :=
  (List.range p.len).filterMap (fun i => if p.is_occupied i then p.data.getD i none else none)

/-- Occupied cells hold initialized values (invariant I2 of the design). -/
def dataInv (p : Pond α) : Bool :=
  (List.range p.len).all (fun i => !(p.is_occupied i) || (p.data.getD i none).isSome)

/-- Structural well-formedness of a pond: its bitmap was last resized to the
length of its data vector. -/
def wf (p : Pond α) : Bool := p.bitmap.wf p.len

end Pond

/-- One node of src/binary_tree.rs: a single boolean per child, true when
that child's whole subtree is full. -/
structure Node where
  left : Bool
  right : Bool
deriving Repr, DecidableEq, Inhabited

/-- The usize constant `!0 << 1` used by the tree to clear the low bit. -/
def NOT1 : Nat := (MAXW <<< 1) &&& MAXW

/-- Fuelled floor base-2 logarithm (`usize::ilog2`, defined for `n ≥ 1`). -/
def ilog2Aux : Nat → Nat → Nat
  | 0, _ => 0
  | fuel + 1, n => if 2 ≤ n then ilog2Aux fuel (n / 2) + 1 else 0

/-- Rust `usize::ilog2` for positive arguments. -/
def ilog2 (n : Nat) : Nat := ilog2Aux n n

/-- Fuelled ceiling base-2 logarithm. -/
def clog2Aux : Nat → Nat → Nat
  | 0, _ => 0
  | fuel + 1, n => if n ≤ 1 then 0 else clog2Aux fuel ((n + 1) / 2) + 1

/-- Rust `usize::next_power_of_two` (`0` and `1` both give `1`). -/
def nextPow2 (n : Nat) : Nat := 2 ^ clog2Aux n n

/-- The flat, in-order-laid-out summary tree of src/binary_tree.rs. -/
structure FullFlatBinaryTree where
  tree : List Node
  height : Nat
  size : Nat
  capacity : Nat
deriving Repr, DecidableEq

namespace FullFlatBinaryTree

/-- Model of `FullFlatBinaryTree::new()`. -/
def new : FullFlatBinaryTree := ⟨[⟨false, false⟩], 0, 0, 2⟩

/-- The upward walk of `FullFlatBinaryTree::set`, iterating
`i` from `steps_from_leaf` to `height`; the fuel argument is the number of
remaining iterations (`height - i`). -/
def setUpAux : List Node → Nat → Bool → Nat → Nat → List Node
  | tree, _, _, _, 0 => tree
  | tree, cur, combined, i, n + 1 =>
    let step := 1 <<< i
    if cur &&& (1 <<< (i + 1)) = 0 then
      let cur1 := cur + step
      let tree1 := tree.set cur1 ⟨combined, (tree.getD cur1 default).right⟩
      let nd := tree1.getD cur1 default
      setUpAux tree1 cur1 (nd.left && nd.right) (i + 1) n
    else
      let cur1 := cur - step
      let tree1 := tree.set cur1 ⟨(tree.getD cur1 default).left, combined⟩
      let nd := tree1.getD cur1 default
      setUpAux tree1 cur1 (nd.left && nd.right) (i + 1) n

/-- Model of `FullFlatBinaryTree::set(path, full, steps_from_leaf)`. -/
def set (t : FullFlatBinaryTree) (path : Nat) (full : Bool) (steps : Nat) :
    Option FullFlatBinaryTree :=
  let cur := (path &&& NOT1) <<< steps
  if cur > t.capacity then none
  else
    let nd := t.tree.getD cur default
    let nd1 := if path &&& 1 = 0 then Node.mk full nd.right else Node.mk nd.left full
    let tree1 := t.tree.set cur nd1
    let nd2 := tree1.getD cur default
    some { t with tree := setUpAux tree1 cur (nd2.left && nd2.right) steps (t.height - steps) }

/-- Model of `FullFlatBinaryTree::get(path, steps_from_leaf)`. -/
def get (t : FullFlatBinaryTree) (path steps : Nat) : Option Bool :=
  let cur := (path &&& NOT1) <<< steps
  if cur > t.capacity then none
  else some (if path &&& 1 = 0 then (t.tree.getD cur default).left
             else (t.tree.getD cur default).right)

/-- Model of `FullFlatBinaryTree::set_leaf(idx, full)`. -/
def set_leaf (t : FullFlatBinaryTree) (idx : Nat) (full : Bool) : Option FullFlatBinaryTree :=
  if t.size ≤ idx then none else t.set idx full 0

/-- Model of `FullFlatBinaryTree::get_leaf(idx)`. -/
def get_leaf (t : FullFlatBinaryTree) (idx : Nat) : Option Bool :=
  if t.size ≤ idx then none else t.get idx 0

/-- The descent loop of `get_first_empty_leaf`, `i` counting down. -/
def gfelAux : List Node → Nat → Nat → Option Nat
  | _, cur, 0 => some cur
  | tree, cur, i + 1 =>
    let step := 1 <<< i
    if (tree.getD cur default).left = false then gfelAux tree (cur - step) i
    else if (tree.getD cur default).right = false then gfelAux tree (cur + step) i
    else none

/-- Model of `FullFlatBinaryTree::get_first_empty_leaf()`. -/
def get_first_empty_leaf (t : FullFlatBinaryTree) : Option Nat :=
  match gfelAux t.tree ((1 <<< t.height) - 1) t.height with
  | none => none
  | some cur =>
    let nd := t.tree.getD cur default
    match (if nd.left = false then some cur
           else if nd.right = false then some (cur + 1) else none) with
    | none => none
    | some result => if result < t.size then some result else none

/-- The descent loop of the commented-out `get_last_full_leaf` (source lines
82–92), which prefers the right child when its stored bit is true. -/
def gllfAux : List Node → Nat → Nat → Option Nat
  | _, cur, 0 => some cur
  | tree, cur, i + 1 =>
    let step := 1 <<< i
    if (tree.getD cur default).right = true then gllfAux tree (cur + step) i
    else if (tree.getD cur default).left = true then gllfAux tree (cur - step) i
    else none

/-- The commented-out `get_last_full_leaf` of src/binary_tree.rs, as written
there. -/
def get_last_full_leaf (t : FullFlatBinaryTree) : Option Nat :=
  match gllfAux t.tree ((1 <<< t.height) - 1) t.height with
  | none => none
  | some cur =>
    let result := cur + ((t.tree.getD cur default).left.toNat)
    if result < t.size then some result else none

/-- Model of `FullFlatBinaryTree::resize(size)`.  The two `unwrap`s on `get_leaf`
cannot fail (the read index is below both the new size and the capacity),
and are modelled with a default; the ignored `set_leaf` result is `none`
only when nothing was mutated, modelled by keeping the state. -/
def resize (t : FullFlatBinaryTree) (size : Nat) : FullFlatBinaryTree :=
  let old_size := t.size
  if t.size = size then t
  else
    let capacity := max (nextPow2 size) 2
    let height := ilog2 (capacity >>> 1)
    let t1 : FullFlatBinaryTree := ⟨t.tree, height, size, capacity⟩
    if old_size > size ∧ size ≠ 0 then
      let last_safe_idx := size - 1
      let last_val := (t1.get_leaf last_safe_idx).getD false
      let tree2 := listResize (t1.tree.take (size - 1)) (capacity - 1) default
      let t2 : FullFlatBinaryTree := ⟨tree2, height, size, capacity⟩
      (t2.set_leaf last_safe_idx last_val).getD t2
    else if old_size > size then
      ⟨listResize (t1.tree.take 0) (capacity - 1) default, height, size, capacity⟩
    else if old_size = 0 then
      ⟨listResize t1.tree (capacity - 1) default, height, size, capacity⟩
    else
      let last_old_idx := old_size - 1
      let last_val := (t1.get_leaf last_old_idx).getD false
      let tree2 := listResize t1.tree (capacity - 1) default
      let t2 : FullFlatBinaryTree := ⟨tree2, height, size, capacity⟩
      (t2.set_leaf last_old_idx last_val).getD t2

/-- The path-summary checker: follows the same walk as `setUpAux` from a
leaf-parent and checks that every parent's written side equals the
conjunction of the two bits of the node below it. -/
def pathOkAux : List Node → Nat → Nat → Nat → Bool
  | _, _, _, 0 => true
  | tree, cur, i, n + 1 =>
    let step := 1 <<< i
    if cur &&& (1 <<< (i + 1)) = 0 then
      let cur1 := cur + step
      ((tree.getD cur1 default).left ==
          ((tree.getD cur default).left && (tree.getD cur default).right)) &&
        pathOkAux tree cur1 (i + 1) n
    else
      let cur1 := cur - step
      ((tree.getD cur1 default).right ==
          ((tree.getD cur default).left && (tree.getD cur default).right)) &&
        pathOkAux tree cur1 (i + 1) n

/-- The summaries on the path from `leaf` to the root are coherent. -/
def pathAsserted (t : FullFlatBinaryTree) (leaf : Nat) : Bool :=
  pathOkAux t.tree (leaf &&& NOT1) 0 t.height

end FullFlatBinaryTree

/-- Rust `usize::MAX`. -/
def USIZE_MAX : Nat := MAXW

/-- The `ReferenceError` of src/lib.rs. -/
inductive ReferenceError
  | OverUnder
  | Dangling
deriving Repr, DecidableEq

/-- The `AccessError` of src/lib.rs. -/
inductive AccessError
  | OutOfBoundsMemory (idx : Nat)
  | FreeMemory (idx : Nat)
  | MisalignedTypes
  | OperationFailed
deriving Repr, DecidableEq

/-- Model of `RefCount::modify_ref(delta)` from src/lib.rs, on the raw count (the
`NonZeroUsize` invariant is `1 ≤ current`): `checked_sub`/`checked_add`
failures give `OverUnder`; a zero result gives `Dangling`; in both error
cases the count is not updated. -/
def modify_ref (current : Nat) (delta : Int) : Except ReferenceError Nat :=
  let checked : Except ReferenceError Nat :=
    if delta < 0 then
      if delta.natAbs ≤ current then Except.ok (current - delta.natAbs)
      else Except.error ReferenceError.OverUnder
    else
      if current + delta.toNat ≤ USIZE_MAX then Except.ok (current + delta.toNat)
      else Except.error ReferenceError.OverUnder
  match checked with
  | Except.error e => Except.error e
  | Except.ok n => if n = 0 then Except.error ReferenceError.Dangling else Except.ok n

/-- A memory slot of the `NodeField` (src/lib.rs): free with a next-free
link, or occupied with a value and its reference count. -/
inductive MemorySlot (α : Type)
  | Free (next : Nat)
  | Occupied (data : α) (rc : Nat)
deriving Repr, DecidableEq

/-- The `NodeField` of src/lib.rs (the fields the reference-count claims
touch). -/
structure NodeField (α : Type) where
  memory : List (MemorySlot α)
  first_free : Nat
deriving Repr, DecidableEq

namespace NodeField

/-- Model of `NodeField::add_ref(index)`: `mut_slot` rejects out-of-range and free
slots, then `modify_ref(1)` runs; only its `OverUnder` error surfaces as
`OperationFailed`, and on any error the memory is left unchanged.  (With an
empty memory vector the Rust `len() - 1` underflows and panics; the model is
only applied to occupied, in-range indices.) -/
def add_ref (nf : NodeField α) (index : Nat) : Except AccessError Unit × NodeField α :=
  if index > nf.memory.length - 1 then
    (Except.error (AccessError.OutOfBoundsMemory index), nf)
  else
    match nf.memory.getD index (MemorySlot.Free 0) with
    | MemorySlot.Free _ => (Except.error (AccessError.FreeMemory index), nf)
    | MemorySlot.Occupied d rc =>
      match modify_ref rc 1 with
      | Except.error ReferenceError.OverUnder => (Except.error AccessError.OperationFailed, nf)
      | Except.error ReferenceError.Dangling => (Except.ok (), nf)
      | Except.ok n => (Except.ok (), ⟨nf.memory.set index (MemorySlot.Occupied d n), nf.first_free⟩)

end NodeField

/-! Concrete program states used by the claim theorems. -/

/-- A bitmap of size 34 with bits 0–32 set (built through the public api). -/
def c3bitmap : AcceleratedBitmap :=
  (List.range 33).foldl (fun b i => b.set i true) ((AcceleratedBitmap.new 3).resize 34)

/-- A bitmap of size 3 with every tracked bit set. -/
def c3bitmapFull : AcceleratedBitmap :=
  (List.range 3).foldl (fun b i => b.set i true) ((AcceleratedBitmap.new 3).resize 3)

/-- A bitmap resized to 64, fully set, then resized to 64 again. -/
def c2bitmap : AcceleratedBitmap :=
  ((List.range 64).foldl (fun b i => b.set i true)
    ((AcceleratedBitmap.new 3).resize 64)).resize 64

/-- Scenario C, first phase: the five insertions into a fresh pond, with the
indices they return. -/
def c5insert : List Nat × Pond Nat :=
  let r0 := (Pond.new : Pond Nat).insert 0
  let r1 := r0.2.insert 1
  let r2 := r1.2.insert 2
  let r3 := r2.2.insert 3
  let r4 := r3.2.insert 4
  ([r0.1, r1.1, r2.1, r3.1, r4.1], r4.2)

/-- Scenario C, after releasing indices 1 and 3. -/
def c5start : Pond Nat := ((c5insert.2.free 1).2.free 3).2

/-- A pond with 33 occupied slots 0–32, built with `write`. -/
def c6start : Pond Nat :=
  (List.range 33).foldl (fun p i => (p.write i i).2) Pond.new

/-- A well-formed two-slot pond with slot 0 free and slot 1 occupied, whose
summary path at index 0 is coherent. -/
def c1pond : Pond Nat :=
  ((((Pond.new : Pond Nat).write 0 10).2.write 1 20).2.free 0).2

/-- A tree of size 4 whose only occupied leaf is 2. -/
def c4tree : FullFlatBinaryTree :=
  ((FullFlatBinaryTree.new.resize 4).set_leaf 2 true).getD (FullFlatBinaryTree.new.resize 4)

/-- A tree of size 8 with leaves 0–6 occupied and leaf 7 free. -/
def c7tree : FullFlatBinaryTree :=
  let t0 := FullFlatBinaryTree.new.resize 8
  let t1 := (List.range 8).foldl (fun t i => (t.set_leaf i true).getD t) t0
  (t1.set_leaf 7 false).getD t1

/-- A one-slot `NodeField` whose value has a saturated reference count. -/
def c9field : NodeField Nat := ⟨[MemorySlot.Occupied 37 USIZE_MAX], 1⟩

/-! Theorems.  First, helper lemmas about lists and 64-bit words. -/

theorem listGetD_set_self (l : List α) (n : Nat) (a d : α) (h : n < l.length) :
    (l.set n a).getD n d = a := by
  rw [List.getD_eq_getElem _ _ (by simpa using h)]
  exact List.getElem_set_self (by simpa using h)

theorem listSet_getD_cancel (l : List α) (n : Nat) (d : α) (h : n < l.length) :
    l.set n (l.getD n d) = l := by
  rw [List.getD_eq_getElem _ _ h]
  apply List.ext_getElem
  · simp
  · intro i h1 h2
    by_cases hin : n = i
    · subst hin
      exact List.getElem_set_self h1
    · exact List.getElem_set_ne hin h1

theorem getD_mem (l : List α) (n : Nat) (d : α) (h : n < l.length) : l.getD n d ∈ l := by
  rw [List.getD_eq_getElem _ _ h]
  exact List.getElem_mem h

theorem testBit_one_shiftLeft (off j : Nat) :
    ((1 <<< off) : Nat).testBit j = decide (off = j) := by
  rw [Nat.one_shiftLeft, Nat.testBit_two_pow]

theorem testBit_compl64 (x j : Nat) :
    (compl64 x).testBit j = (decide (j < 64) ^^ x.testBit j) := by
  unfold compl64 MAXW
  rw [Nat.testBit_xor, Nat.testBit_two_pow_sub_one]

theorem testBit_ge64 (w j : Nat) (hw : w < 2 ^ 64) (hj : 64 ≤ j) : w.testBit j = false :=
  Nat.testBit_lt_two_pow
    (lt_of_lt_of_le hw (Nat.pow_le_pow_right (by norm_num) hj))

theorem bit_shift32 (off : Nat) : ((1 <<< off) <<< 32 : Nat) = 1 <<< (off + 32) := by
  simp [Nat.shiftLeft_eq, Nat.pow_add, Nat.mul_assoc]

theorem testBit_setBit (w k j : Nat) :
    (w ||| (1 <<< k)).testBit j = if j = k then true else w.testBit j := by
  rw [Nat.testBit_lor, testBit_one_shiftLeft]
  by_cases h : j = k
  · simp [h]
  · have h2 : k ≠ j := Ne.symm h
    simp [h, h2]

theorem testBit_clearBit (w k j : Nat) (hw : w < 2 ^ 64) (hk : k < 64) :
    (w &&& compl64 (1 <<< k)).testBit j = if j = k then false else w.testBit j := by
  rw [Nat.testBit_land, testBit_compl64, testBit_one_shiftLeft]
  by_cases hj : j = k
  · subst hj
    simp [hk]
  · have hj2 : k ≠ j := Ne.symm hj
    by_cases hj64 : j < 64
    · simp [hj, hj2, hj64]
    · have hz : w.testBit j = false := testBit_ge64 w j hw (by omega)
      simp [hj, hj2, hj64, hz]

theorem lor_lt_two_pow64 (x y : Nat) (hx : x < 2 ^ 64) (hy : y < 2 ^ 64) :
    x ||| y < 2 ^ 64 :=
  Nat.bitwise_lt hx hy

theorem bit_lt_two_pow64 (off : Nat) (h : off < 64) : (1 <<< off : Nat) < 2 ^ 64 := by
  rw [Nat.one_shiftLeft]
  exact Nat.pow_lt_pow_right (by norm_num) h

theorem writePathBits_lt (w off : Nat) (f e : Bool) (hw : w < 2 ^ 64) (hoff : off ≤ 31) :
    AcceleratedBitmap.writePathBits w off f e < 2 ^ 64 := by
  unfold AcceleratedBitmap.writePathBits
  dsimp only
  rw [bit_shift32]
  have hb1 : (1 <<< off : Nat) < 2 ^ 64 := bit_lt_two_pow64 off (by omega)
  have hb2 : (1 <<< (off + 32) : Nat) < 2 ^ 64 := bit_lt_two_pow64 (off + 32) (by omega)
  have hw1 : (if f then w ||| (1 <<< off) else w &&& compl64 (1 <<< off)) < 2 ^ 64 := by
    cases f
    · exact lt_of_le_of_lt Nat.and_le_left hw
    · exact lor_lt_two_pow64 _ _ hw hb1
  cases e
  · exact lt_of_le_of_lt Nat.and_le_left hw1
  · exact lor_lt_two_pow64 _ _ hw1 hb2

theorem testBit_writePathBits (w off : Nat) (f e : Bool) (hw : w < 2 ^ 64)
    (hoff : off ≤ 31) (j : Nat) :
    (AcceleratedBitmap.writePathBits w off f e).testBit j =
      if j = off then f else if j = off + 32 then e else w.testBit j := by
  unfold AcceleratedBitmap.writePathBits
  dsimp only
  rw [bit_shift32]
  have hw1 : (if f then w ||| (1 <<< off) else w &&& compl64 (1 <<< off)) < 2 ^ 64 := by
    cases f
    · exact lt_of_le_of_lt Nat.and_le_left hw
    · exact lor_lt_two_pow64 _ _ hw (bit_lt_two_pow64 off (by omega))
  have hb1 : ∀ j', (if f then w ||| (1 <<< off) else w &&& compl64 (1 <<< off)).testBit j' =
      if j' = off then f else w.testBit j' := by
    intro j'
    cases f
    · rw [if_neg Bool.false_ne_true, testBit_clearBit w off j' hw (by omega)]
    · rw [if_pos rfl, testBit_setBit]
  cases e
  · rw [if_neg Bool.false_ne_true, testBit_clearBit _ (off + 32) j hw1 (by omega), hb1 j]
    by_cases h1 : j = off
    · rw [if_neg (by omega : ¬ j = off + 32), if_pos h1, if_pos h1]
    · by_cases h2 : j = off + 32
      · rw [if_pos h2, if_neg h1, if_pos h2]
      · rw [if_neg h2, if_neg h1, if_neg h1, if_neg h2]
  · rw [if_pos rfl, testBit_setBit, hb1 j]
    by_cases h1 : j = off
    · rw [if_neg (by omega : ¬ j = off + 32), if_pos h1, if_pos h1]
    · by_cases h2 : j = off + 32
      · rw [if_pos h2, if_neg h1, if_pos h2]
      · rw [if_neg h2, if_neg h1, if_neg h1, if_neg h2]

theorem writePathBits_restore (w off : Nat) (f1 e1 : Bool) (hw : w < 2 ^ 64)
    (hoff : off ≤ 31) :
    AcceleratedBitmap.writePathBits (AcceleratedBitmap.writePathBits w off f1 e1) off
      (w.testBit off) (w.testBit (off + 32)) = w := by
  apply Nat.eq_of_testBit_eq
  intro j
  rw [testBit_writePathBits _ _ _ _ (writePathBits_lt w off f1 e1 hw hoff) hoff,
    testBit_writePathBits w off f1 e1 hw hoff]
  by_cases h1 : j = off
  · rw [if_pos h1, h1]
  · rw [if_neg h1, if_neg h1]
    by_cases h2 : j = off + 32
    · rw [if_pos h2, h2]
    · rw [if_neg h2, if_neg h2]

theorem writePathBits_zero (off : Nat) :
    AcceleratedBitmap.writePathBits 0 off false false = 0 := by
  unfold AcceleratedBitmap.writePathBits
  simp [Nat.zero_and]

theorem or_and_compl64 (w off : Nat) (hw : w < 2 ^ 64) (hoff : off < 64)
    (hbit : w.testBit off = false) :
    (w ||| (1 <<< off)) &&& compl64 (1 <<< off) = w := by
  apply Nat.eq_of_testBit_eq
  intro j
  rw [testBit_clearBit _ off j (lor_lt_two_pow64 _ _ hw (bit_lt_two_pow64 off hoff)) hoff,
    testBit_setBit]
  by_cases h : j = off
  · rw [if_pos h, h]
    exact hbit.symm
  · rw [if_neg h, if_neg h]

theorem or_bit_and_bit (w off : Nat) : (w ||| (1 <<< off)) &&& (1 <<< off) = 1 <<< off := by
  apply Nat.eq_of_testBit_eq
  intro j
  rw [Nat.testBit_land, testBit_setBit, testBit_one_shiftLeft]
  by_cases h : j = off
  · simp [h]
  · have h2 : off ≠ j := Ne.symm h
    simp [h, h2]

theorem and_compl_and_bit (w off : Nat) (hoff : off < 64) :
    (w &&& compl64 (1 <<< off)) &&& (1 <<< off) = 0 := by
  rw [Nat.and_assoc]
  have hz : compl64 (1 <<< off) &&& (1 <<< off) = 0 := by
    apply Nat.eq_of_testBit_eq
    intro j
    rw [Nat.testBit_land, testBit_compl64, testBit_one_shiftLeft, Nat.zero_testBit]
    by_cases h : j = off
    · subst h
      simp [hoff]
    · have h2 : off ≠ j := Ne.symm h
      simp [h2]
  rw [hz, Nat.and_zero]

theorem and_bit_eq_zero_iff (w off : Nat) :
    (w &&& (1 <<< off) = 0) ↔ w.testBit off = false := by
  rw [Nat.one_shiftLeft, Nat.and_two_pow]
  cases hb : w.testBit off
  · simp
  · simp [(Nat.two_pow_pos off).ne']

theorem setLayers_restore (layers : List (List Nat)) :
    ∀ (idx : Nat) (f1 e1 f e : Bool),
      AcceleratedBitmap.layersNormal layers idx f e = true →
      (∀ l ∈ layers, ∀ w ∈ l, w < 2 ^ 64) →
      AcceleratedBitmap.setLayers (AcceleratedBitmap.setLayers layers idx f1 e1) idx f e =
        layers := by
  induction layers with
  | nil => intro idx f1 e1 f e _ _; rfl
  | cons layer rest ih =>
    intro idx f1 e1 f e hN hW
    have hoff : idx &&& 31 ≤ 31 := Nat.and_le_right
    unfold AcceleratedBitmap.layersNormal at hN
    simp only [Bool.and_eq_true, beq_iff_eq] at hN
    obtain ⟨⟨hf, he⟩, hrest⟩ := hN
    simp only [AcceleratedBitmap.setLayers]
    by_cases hlt : idx >>> 5 < layer.length
    · have hwmem : layer.getD (idx >>> 5) 0 ∈ layer := getD_mem layer (idx >>> 5) 0 hlt
      have hw : layer.getD (idx >>> 5) 0 < 2 ^ 64 :=
        hW layer (List.mem_cons_self layer rest) _ hwmem
      rw [listGetD_set_self _ _ _ _ hlt]
      rw [← hf, ← he, writePathBits_restore _ _ _ _ hw hoff]
      rw [List.set_set, listSet_getD_cancel _ _ _ hlt]
      rw [ih (idx >>> 5) _ _ _ _ hrest
        (fun l hl => hW l (List.mem_cons_of_mem layer hl))]
    · have hge : layer.length ≤ idx >>> 5 := by omega
      have hw0 : layer.getD (idx >>> 5) 0 = 0 := List.getD_eq_default layer 0 hge
      have hf0 : f = false := by rw [← hf, hw0, Nat.zero_testBit]
      have he0 : e = false := by rw [← he, hw0, Nat.zero_testBit]
      subst hf0
      subst he0
      rw [hw0] at hrest
      rw [List.set_eq_of_length_le hge]
      rw [hw0, writePathBits_zero]
      rw [List.set_eq_of_length_le hge]
      rw [ih (idx >>> 5) _ _ _ _ hrest
        (fun l hl => hW l (List.mem_cons_of_mem layer hl))]

theorem wf_parts (b : AcceleratedBitmap) (len : Nat) (h : b.wf len = true) :
    b.base.length = len >>> 6 + 1 ∧ (∀ w ∈ b.base, w < 2 ^ 64) ∧
      (∀ l ∈ b.accel_layers, l.length = len + 1 ∧ ∀ w ∈ l, w < 2 ^ 64) := by
  unfold AcceleratedBitmap.wf AcceleratedBitmap.wordsOk at h
  simp only [Bool.and_eq_true, beq_iff_eq, List.all_eq_true, decide_eq_true_eq] at h
  exact ⟨h.1.1.1, h.1.1.2, fun l hl => (h.2 l hl)⟩

theorem widx_lt_base (b : AcceleratedBitmap) (i len : Nat) (hwf : b.wf len = true)
    (hi : i < len) : i >>> 6 < b.base.length := by
  obtain ⟨hblen, _, _⟩ := wf_parts b len hwf
  rw [hblen, Nat.shiftRight_eq_div_pow, Nat.shiftRight_eq_div_pow]
  have := Nat.div_le_div_right (c := 2 ^ 6) (Nat.le_of_lt hi)
  omega

theorem set_set_restore (b : AcceleratedBitmap) (i len : Nat)
    (hwf : b.wf len = true) (hi : i < len)
    (hbit : b.is_set i = false) (hn : b.pathNormal i = true) :
    (b.set i true).set i false = b := by
  obtain ⟨hblen, hbw, hlay⟩ := wf_parts b len hwf
  have hwidx : i >>> 6 < b.base.length := widx_lt_base b i len hwf hi
  have hw : b.base.getD (i >>> 6) 0 < 2 ^ 64 := hbw _ (getD_mem _ _ _ hwidx)
  have hbitf : (b.base.getD (i >>> 6) 0).testBit (i &&& 63) = false := by
    unfold AcceleratedBitmap.is_set at hbit
    simp only [ne_eq, decide_not, Bool.not_eq_false', decide_eq_true_eq] at hbit
    exact (and_bit_eq_zero_iff _ _).mp hbit
  have hoff : i &&& 63 < 64 := by
    have : i &&& 63 ≤ 63 := Nat.and_le_right
    omega
  obtain ⟨base, layers⟩ := b
  unfold AcceleratedBitmap.set
  dsimp only
  rw [if_pos rfl, if_neg Bool.false_ne_true]
  rw [listGetD_set_self _ _ _ _ hwidx]
  rw [or_and_compl64 _ _ hw hoff hbitf]
  rw [List.set_set, listSet_getD_cancel _ _ _ hwidx]
  have hlayers := setLayers_restore layers (i >>> 6)
    (decide ((base.getD (i >>> 6) 0 ||| 1 <<< (i &&& 63)) = MAXW))
    (decide ((base.getD (i >>> 6) 0 ||| 1 <<< (i &&& 63)) = 0))
    (decide (base.getD (i >>> 6) 0 = MAXW)) (decide (base.getD (i >>> 6) 0 = 0))
    (by exact hn) (fun l hl => (hlay l hl).2)
  rw [hlayers]

theorem is_set_set_true (b : AcceleratedBitmap) (i : Nat) (hb : i >>> 6 < b.base.length) :
    (b.set i true).is_set i = true := by
  unfold AcceleratedBitmap.set AcceleratedBitmap.is_set
  dsimp only
  rw [if_pos rfl, listGetD_set_self _ _ _ _ hb, or_bit_and_bit]
  simp [Nat.one_shiftLeft, (Nat.two_pow_pos (i &&& 63)).ne']

theorem is_set_set_false (b : AcceleratedBitmap) (i : Nat) (hb : i >>> 6 < b.base.length) :
    (b.set i false).is_set i = false := by
  have hoff : i &&& 63 < 64 := by
    have : i &&& 63 ≤ 63 := Nat.and_le_right
    omega
  unfold AcceleratedBitmap.set AcceleratedBitmap.is_set
  dsimp only
  rw [if_neg Bool.false_ne_true, listGetD_set_self _ _ _ _ hb, and_compl_and_bit _ _ hoff]
  simp

theorem reserve_of_first_free (p : Pond α) (i : Nat)
    (hff : p.bitmap.first_free = some i) (hi : i < p.len) :
    p.reserve = (i, ⟨p.data, p.bitmap.set i true⟩) := by
  unfold Pond.reserve
  rw [hff]
  dsimp only [Option.getD_some]
  rw [if_neg (by omega)]

theorem insert_of_first_free (p : Pond α) (v : α) (i : Nat)
    (hff : p.bitmap.first_free = some i) (hi : i < p.len) :
    p.insert v = (i, ⟨p.data.set i (some v), p.bitmap.set i true⟩) := by
  unfold Pond.insert
  rw [reserve_of_first_free p i hff hi]

/-- Claim C1 (amended): from any well-formed pool that has a free index `i`
below its capacity reported by `first_free`, with coherent summary bits
along that index's path, `insert v` allocates exactly `i` and an immediate
`free i` returns `some v`; the capacity and the whole occupancy bitmap are
restored bit-for-bit, and the backing storage differs only at slot `i`,
which is left unoccupied but retains the residue of `v` (as
`MaybeUninit::assume_init_read` leaves the bytes in place).  Without a free
slot below capacity the pool instead keeps the grown capacity
(`c1_counterexample`), and a stale summary path is normalized rather than
restored. -/
theorem c1_round_trip_amended (α : Type) (p : Pond α) (v : α) (i : Nat)
    (hwf : p.wf = true) (hff : p.bitmap.first_free = some i) (hi : i < p.len)
    (hfree : p.bitmap.is_set i = false) (hpath : p.bitmap.pathNormal i = true) :
    (p.insert v).1 = i ∧
    (Pond.free (p.insert v).2 i).1 = some v ∧
    (Pond.free (p.insert v).2 i).2 = ⟨p.data.set i (some v), p.bitmap⟩ := by
  have hwf' : p.bitmap.wf p.len = true := hwf
  have hidata : i < p.data.length := hi
  have hins := insert_of_first_free p v i hff hi
  rw [hins]
  have hwidx : i >>> 6 < p.bitmap.base.length := widx_lt_base p.bitmap i p.len hwf' hi
  have hocc : Pond.is_occupied ⟨p.data.set i (some v), p.bitmap.set i true⟩ i = true := by
    unfold Pond.is_occupied
    dsimp only
    rw [List.length_set]
    rw [if_pos hidata]
    exact is_set_set_true p.bitmap i hwidx
  have hfree_eq : Pond.free ⟨p.data.set i (some v), p.bitmap.set i true⟩ i =
      ((p.data.set i (some v)).getD i none,
        ⟨p.data.set i (some v), (p.bitmap.set i true).set i false⟩) := by
    unfold Pond.free
    rw [hocc]
    rw [if_pos rfl]
  refine ⟨rfl, ?_, ?_⟩
  · rw [hfree_eq]
    exact congrArg Prod.fst (by rw [listGetD_set_self p.data i (some v) none hidata]) |>.trans rfl
  · rw [hfree_eq]
    have hrestore := set_set_restore p.bitmap i p.len hwf' hi hfree hpath
    rw [hrestore]

/-- Claim C1 witness: the amended round trip applied to the concrete
well-formed pool `c1pond` (slot 0 free, slot 1 occupied) and the value 5. -/
theorem c1_round_trip_amended_witness :
    (Pond.wf c1pond = true ∧ c1pond.bitmap.first_free = some 0 ∧ 0 < c1pond.len ∧
      c1pond.bitmap.is_set 0 = false ∧ c1pond.bitmap.pathNormal 0 = true) ∧
    ((c1pond.insert 5).1 = 0 ∧
      (Pond.free (c1pond.insert 5).2 0).1 = some 5 ∧
      (Pond.free (c1pond.insert 5).2 0).2 = ⟨c1pond.data.set 0 (some 5), c1pond.bitmap⟩) :=
  ⟨⟨by decide, by decide, by decide, by decide, by decide⟩,
    c1_round_trip_amended Nat c1pond 5 0 (by decide) (by decide) (by decide)
      (by decide) (by decide)⟩

theorem listResize_length (l : List α) (n : Nat) (d : α) :
    (listResize l n d).length = n := by
  unfold listResize
  rw [List.length_append, List.length_take, List.length_replicate]
  omega

theorem listGetD_set_ne (l : List α) (a m : Nat) (x d : α) (h : a ≠ m) :
    (l.set a x).getD m d = l.getD m d := by
  by_cases hm : m < l.length
  · rw [List.getD_eq_getElem _ _ (by simpa using hm), List.getD_eq_getElem _ _ hm]
    exact List.getElem_set_ne h _
  · rw [List.getD_eq_default _ _ (by simpa using Nat.not_lt.mp hm),
      List.getD_eq_default _ _ (Nat.not_lt.mp hm)]

theorem le_nextPow2_aux : ∀ (fuel n : Nat), n ≤ fuel → n ≤ 2 ^ clog2Aux fuel n := by
  intro fuel
  induction fuel with
  | zero => intro n h; exact le_trans h (Nat.zero_le _)
  | succ fuel ih =>
    intro n h
    unfold clog2Aux
    by_cases h1 : n ≤ 1
    · rw [if_pos h1]
      simpa using h1
    · rw [if_neg h1, pow_succ]
      have hrec : (n + 1) / 2 ≤ 2 ^ clog2Aux fuel ((n + 1) / 2) :=
        ih ((n + 1) / 2) (by omega)
      omega

theorem le_nextPow2 (n : Nat) : n ≤ nextPow2 n := le_nextPow2_aux n n (le_refl n)

theorem ilog2Aux_pow : ∀ (fuel k : Nat), 2 ^ k ≤ fuel → ilog2Aux fuel (2 ^ k) = k := by
  intro fuel
  induction fuel with
  | zero => intro k h; have := Nat.two_pow_pos k; omega
  | succ fuel ih =>
    intro k h
    unfold ilog2Aux
    cases k with
    | zero => simp
    | succ j =>
      rw [if_pos (by have := Nat.one_le_two_pow (n := j); rw [pow_succ]; omega)]
      have hdiv : 2 ^ (j + 1) / 2 = 2 ^ j := by
        rw [pow_succ]
        exact Nat.mul_div_cancel _ (by norm_num)
      rw [hdiv, ih j (by have := Nat.one_le_two_pow (n := j); rw [pow_succ] at h; omega)]

/-- The internal capacity chosen by `FullFlatBinaryTree::resize` is a power
of two `2 ^ K` with `K ≥ 1`, the stored height is `K - 1`, and the requested
size fits. -/
theorem cap_pow (sz : Nat) : ∃ K, 1 ≤ K ∧ max (nextPow2 sz) 2 = 2 ^ K ∧
    ilog2 (max (nextPow2 sz) 2 >>> 1) = K - 1 ∧ sz ≤ 2 ^ K := by
  unfold nextPow2
  cases hk : clog2Aux sz sz with
  | zero =>
    refine ⟨1, le_refl 1, by norm_num, ?_, ?_⟩
    · norm_num
      rfl
    · have := le_nextPow2 sz
      unfold nextPow2 at this
      rw [hk] at this
      omega
  | succ j =>
    have h2 : 2 ≤ 2 ^ (j + 1) := by
      have := Nat.one_le_two_pow (n := j)
      rw [pow_succ]
      omega
    refine ⟨j + 1, by omega, Nat.max_eq_left h2, ?_, ?_⟩
    · rw [Nat.max_eq_left h2, Nat.shiftRight_eq_div_pow]
      have hdiv : 2 ^ (j + 1) / 2 ^ 1 = 2 ^ j := by
        rw [pow_succ, pow_one]
        exact Nat.mul_div_cancel _ (by norm_num)
      rw [hdiv]
      unfold ilog2
      rw [ilog2Aux_pow (2 ^ j) j (le_refl _)]
      omega
    · have := le_nextPow2 sz
      unfold nextPow2 at this
      rw [hk] at this
      exact this

theorem two_mul_sub_one_mod (Q : Nat) (hQ : 0 < Q) : (2 * Q - 1) % Q = Q - 1 := by
  have h : 2 * Q - 1 = Q + (Q - 1) := by omega
  rw [h, Nat.add_mod_left]
  exact Nat.mod_eq_of_lt (by omega)

theorem mod_pow_reduce (i x v : Nat) (h : x % (2 ^ (i + 2)) = v) :
    x % (2 ^ (i + 1)) = v % (2 ^ (i + 1)) := by
  rw [← h]
  exact (Nat.mod_mod_of_dvd x (Nat.pow_dvd_pow 2 (by omega))).symm

/-- The walk of `FullFlatBinaryTree::set` maintains the residue invariant
`cur ≡ 2 ^ i - 1 (mod 2 ^ (i + 1))`: at level `i` the tested bit decides
which neighbour is the parent, and either step lands on a position that is
`≡ 2 ^ (i + 1) - 1 (mod 2 ^ (i + 2))`. -/
theorem step_residue (i cur : Nat) (h : cur % (2 ^ (i + 1)) = 2 ^ i - 1) :
    (cur &&& (1 <<< (i + 1)) = 0 →
      cur % (2 ^ (i + 2)) = 2 ^ i - 1 ∧
      (cur + 2 ^ i) % (2 ^ (i + 2)) = 2 ^ (i + 1) - 1) ∧
    (cur &&& (1 <<< (i + 1)) ≠ 0 →
      2 ^ i ≤ cur ∧ cur % (2 ^ (i + 2)) = 3 * 2 ^ i - 1 ∧
      (cur - 2 ^ i) % (2 ^ (i + 2)) = 2 ^ (i + 1) - 1) := by
  have hPpos : 0 < 2 ^ i := Nat.two_pow_pos i
  have h2 : (2 : Nat) ^ (i + 1) = 2 * 2 ^ i := by rw [pow_succ]; ring
  have h4 : (2 : Nat) ^ (i + 2) = 2 * 2 ^ i * 2 := by rw [pow_succ, pow_succ]; ring
  set P := 2 ^ i with hP
  rw [h2] at h
  have hbit : (cur &&& (1 <<< (i + 1)) = 0) ↔ cur / (2 * P) % 2 = 0 := by
    rw [and_bit_eq_zero_iff, Nat.testBit_to_div_mod, h2]
    constructor
    · intro hx
      simp only [decide_eq_false_iff_not] at hx
      omega
    · intro hx
      simp only [decide_eq_false_iff_not]
      omega
  have hsplit : cur % (2 * P * 2) = cur % (2 * P) + 2 * P * (cur / (2 * P) % 2) :=
    Nat.mod_mul
  rw [h] at hsplit
  constructor
  · intro hb
    have hz := hbit.mp hb
    rw [hz] at hsplit
    have hcur4 : cur % (2 * P * 2) = P - 1 := by simpa using hsplit
    refine ⟨by rw [h4]; exact hcur4, ?_⟩
    rw [h4, h2]
    have hdm := Nat.div_add_mod cur (2 * P * 2)
    rw [hcur4] at hdm
    have hsum : cur + P = 2 * P * 2 * (cur / (2 * P * 2)) + (2 * P - 1) := by omega
    rw [hsum, Nat.mul_add_mod]
    exact Nat.mod_eq_of_lt (by omega)
  · intro hb
    have hz : cur / (2 * P) % 2 = 1 := by
      have hne := hbit.not.mp hb
      omega
    rw [hz] at hsplit
    have hcur4 : cur % (2 * P * 2) = 3 * P - 1 := by
      have hx := hsplit
      simp only [Nat.mul_one] at hx
      omega
    have hle : P ≤ cur := by
      have hmle := Nat.mod_le cur (2 * P * 2)
      omega
    refine ⟨hle, by rw [h4]; exact hcur4, ?_⟩
    rw [h4, h2]
    have hdm := Nat.div_add_mod cur (2 * P * 2)
    rw [hcur4] at hdm
    have hsum : cur - P = 2 * P * 2 * (cur / (2 * P * 2)) + (2 * P - 1) := by omega
    rw [hsum, Nat.mul_add_mod]
    exact Nat.mod_eq_of_lt (by omega)

theorem residue_ne_full (i m : Nat) (hm : m % (2 ^ (i + 1)) ≠ 2 ^ (i + 1) - 1) :
    m % (2 ^ (i + 2)) ≠ 2 ^ (i + 2) - 1 := by
  intro he
  apply hm
  have hred := mod_pow_reduce i m _ he
  have h2 : (2 : Nat) ^ (i + 2) = 2 * 2 ^ (i + 1) := by rw [pow_succ]; ring
  rw [hred, h2, two_mul_sub_one_mod _ (Nat.two_pow_pos (i + 1))]

theorem residue_path_ne (i x m : Nat) (hx : x % (2 ^ (i + 2)) = 2 ^ (i + 1) - 1)
    (hm : m % (2 ^ (i + 1)) ≠ 2 ^ (i + 1) - 1) : x ≠ m := by
  intro he
  subst he
  apply hm
  rw [mod_pow_reduce i x _ hx]
  exact Nat.mod_eq_of_lt (by have := Nat.two_pow_pos (i + 1); omega)

/-- Writes of the `set` walk stay on positions `≡ 2 ^ (i + 1) - 1
(mod 2 ^ (i + 2))` and deeper, so any position off that pattern is
untouched. -/
theorem setUp_frame : ∀ (n i : Nat) (tree : List Node) (cur m : Nat) (combined : Bool),
    cur % (2 ^ (i + 1)) = 2 ^ i - 1 →
    m % (2 ^ (i + 1)) ≠ 2 ^ (i + 1) - 1 →
    (FullFlatBinaryTree.setUpAux tree cur combined i n).getD m default =
      tree.getD m default := by
  intro n
  induction n with
  | zero => intro i tree cur m combined _ _; rfl
  | succ n ih =>
    intro i tree cur m combined hres hm
    have hsr := step_residue i cur hres
    have hm2 := residue_ne_full i m hm
    unfold FullFlatBinaryTree.setUpAux
    by_cases hb : cur &&& (1 <<< (i + 1)) = 0
    · rw [if_pos hb]
      dsimp only
      obtain ⟨_, hres1⟩ := hsr.1 hb
      rw [Nat.one_shiftLeft]
      rw [ih (i + 1) _ (cur + 2 ^ i) m _ hres1 hm2]
      exact listGetD_set_ne _ _ _ _ _ (residue_path_ne i (cur + 2 ^ i) m hres1 hm)
    · rw [if_neg hb]
      dsimp only
      obtain ⟨hge, _, hres1⟩ := hsr.2 hb
      rw [Nat.one_shiftLeft]
      rw [ih (i + 1) _ (cur - 2 ^ i) m _ hres1 hm2]
      exact listGetD_set_ne _ _ _ _ _ (residue_path_ne i (cur - 2 ^ i) m hres1 hm)

/-- The walk of `FullFlatBinaryTree::set` re-asserts the summary path: after
`setUpAux`, every parent written on the way up carries exactly the
conjunction of the two bits of the node it came from. -/
theorem pathOk_setUp (H : Nat) : ∀ (n i : Nat) (tree : List Node) (cur : Nat)
    (combined : Bool),
    i + n = H →
    cur % (2 ^ (i + 1)) = 2 ^ i - 1 →
    cur < 2 ^ (H + 1) - 1 →
    tree.length = 2 ^ (H + 1) - 1 →
    combined = ((tree.getD cur default).left && (tree.getD cur default).right) →
    FullFlatBinaryTree.pathOkAux (FullFlatBinaryTree.setUpAux tree cur combined i n)
      cur i n = true := by
  intro n
  induction n with
  | zero => intros; rfl
  | succ n ih =>
    intro i tree cur combined hfuel hres hub hlen hcomb
    have hsr := step_residue i cur hres
    have hppos : 0 < (2 : Nat) ^ i := Nat.two_pow_pos i
    have hp1 : (2 : Nat) ^ (i + 1) = 2 * 2 ^ i := by rw [pow_succ]; ring
    have hp2 : (2 : Nat) ^ (i + 2) = 2 * 2 ^ i * 2 := by rw [pow_succ, pow_succ]; ring
    obtain ⟨M, hM⟩ : ∃ M, (2 : Nat) ^ (H + 1) = 2 ^ (i + 2) * M :=
      Nat.pow_dvd_pow 2 (by omega)
    unfold FullFlatBinaryTree.setUpAux FullFlatBinaryTree.pathOkAux
    by_cases hb : cur &&& (1 <<< (i + 1)) = 0
    · simp only [if_pos hb]
      rw [Nat.one_shiftLeft]
      obtain ⟨hcur4, hres1⟩ := hsr.1 hb
      have hdm := Nat.div_add_mod cur (2 ^ (i + 2))
      rw [hcur4] at hdm
      have hqlt : cur / 2 ^ (i + 2) + 1 ≤ M := by
        by_contra hcon
        push_neg at hcon
        have hmul : 2 ^ (i + 2) * M ≤ 2 ^ (i + 2) * (cur / 2 ^ (i + 2)) :=
          Nat.mul_le_mul_left _ (by omega)
        omega
      have hexp : 2 ^ (i + 2) * (cur / 2 ^ (i + 2) + 1) =
          2 ^ (i + 2) * (cur / 2 ^ (i + 2)) + 2 ^ (i + 2) := by ring
      have hmul2 : 2 ^ (i + 2) * (cur / 2 ^ (i + 2) + 1) ≤ 2 ^ (i + 2) * M :=
        Nat.mul_le_mul_left _ hqlt
      have hbound : cur + 2 ^ i < 2 ^ (H + 1) - 1 := by omega
      have hin : cur + 2 ^ i < tree.length := by omega
      have hnecur : cur + 2 ^ i ≠ cur := by omega
      have hmcur : cur % (2 ^ (i + 1 + 1)) ≠ 2 ^ (i + 1 + 1) - 1 := by
        rw [show i + 1 + 1 = i + 2 from rfl, hcur4]
        omega
      have hmcur1 : (cur + 2 ^ i) % (2 ^ (i + 1 + 1)) ≠ 2 ^ (i + 1 + 1) - 1 := by
        rw [show i + 1 + 1 = i + 2 from rfl, hres1]
        omega
      rw [Bool.and_eq_true]
      constructor
      · rw [setUp_frame n (i + 1) _ _ _ _ hres1 hmcur1]
        rw [setUp_frame n (i + 1) _ _ _ _ hres1 hmcur]
        rw [listGetD_set_self _ _ _ _ hin]
        rw [listGetD_set_ne _ _ _ _ _ hnecur]
        rw [hcomb]
        exact beq_self_eq_true _
      · exact ih (i + 1) _ (cur + 2 ^ i) _ (by omega) hres1 hbound
          (by rw [List.length_set]; exact hlen) rfl
    · simp only [if_neg hb]
      rw [Nat.one_shiftLeft]
      obtain ⟨hge, hcur4, hres1⟩ := hsr.2 hb
      have hbound : cur - 2 ^ i < 2 ^ (H + 1) - 1 := by omega
      have hin : cur - 2 ^ i < tree.length := by omega
      have hnecur : cur - 2 ^ i ≠ cur := by omega
      have hmcur : cur % (2 ^ (i + 1 + 1)) ≠ 2 ^ (i + 1 + 1) - 1 := by
        rw [show i + 1 + 1 = i + 2 from rfl, hcur4]
        omega
      have hmcur1 : (cur - 2 ^ i) % (2 ^ (i + 1 + 1)) ≠ 2 ^ (i + 1 + 1) - 1 := by
        rw [show i + 1 + 1 = i + 2 from rfl, hres1]
        omega
      rw [Bool.and_eq_true]
      constructor
      · rw [setUp_frame n (i + 1) _ _ _ _ hres1 hmcur1]
        rw [setUp_frame n (i + 1) _ _ _ _ hres1 hmcur]
        rw [listGetD_set_self _ _ _ _ hin]
        rw [listGetD_set_ne _ _ _ _ _ hnecur]
        rw [hcomb]
        exact beq_self_eq_true _
      · exact ih (i + 1) _ (cur - 2 ^ i) _ (by omega) hres1 hbound
          (by rw [List.length_set]; exact hlen) rfl

theorem and_NOT1_even (x : Nat) : (x &&& NOT1) % 2 = 0 := by
  have h0 : (x &&& NOT1).testBit 0 = false := by
    rw [Nat.testBit_land]
    have : NOT1.testBit 0 = false := by decide
    simp [this]
  rw [Nat.testBit_to_div_mod] at h0
  simp only [pow_zero, Nat.div_one, decide_eq_false_iff_not] at h0
  omega

/-- Writing the last live leaf of a freshly rebuilt tree stores its value at
the leaf-parent and re-asserts the whole path of summaries above it. -/
theorem shrink_set_leaf_result (tree2 : List Node) (hgt sz cap : Nat) (v : Bool)
    (hsz : 0 < sz) (hcapsz : sz ≤ cap) (hlen2 : tree2.length = cap - 1)
    (hcappow : cap = 2 ^ (hgt + 1)) :
    FullFlatBinaryTree.get_leaf
      (((⟨tree2, hgt, sz, cap⟩ : FullFlatBinaryTree).set_leaf (sz - 1) v).getD
        ⟨tree2, hgt, sz, cap⟩) (sz - 1) = some v ∧
    FullFlatBinaryTree.pathAsserted
      (((⟨tree2, hgt, sz, cap⟩ : FullFlatBinaryTree).set_leaf (sz - 1) v).getD
        ⟨tree2, hgt, sz, cap⟩) (sz - 1) = true := by
  have heven : ((sz - 1) &&& NOT1) % 2 = 0 := and_NOT1_even (sz - 1)
  have hcur_le : (sz - 1) &&& NOT1 ≤ sz - 1 := Nat.and_le_left
  have hcapeven : cap = 2 * 2 ^ hgt := by rw [hcappow, pow_succ]; ring
  have hppos : 0 < (2 : Nat) ^ hgt := Nat.two_pow_pos hgt
  have hcurlt : (sz - 1) &&& NOT1 < cap - 1 := by omega
  have hng : ¬ ((⟨tree2, hgt, sz, cap⟩ : FullFlatBinaryTree).size ≤ sz - 1) := by
    show ¬ (sz ≤ sz - 1)
    omega
  have hres0 : ((sz - 1) &&& NOT1) % 2 ^ (0 + 1) = 2 ^ 0 - 1 := by
    simpa using heven
  have hm0 : ((sz - 1) &&& NOT1) % 2 ^ (0 + 1) ≠ 2 ^ (0 + 1) - 1 := by
    show ((sz - 1) &&& NOT1) % 2 ≠ 1
    omega
  unfold FullFlatBinaryTree.set_leaf
  rw [if_neg hng]
  unfold FullFlatBinaryTree.set
  dsimp only
  rw [Nat.shiftLeft_zero]
  rw [if_neg (by show ¬ ((sz - 1) &&& NOT1 > cap); omega)]
  rw [Option.getD_some]
  constructor
  · unfold FullFlatBinaryTree.get_leaf
    rw [if_neg hng]
    unfold FullFlatBinaryTree.get
    dsimp only
    rw [Nat.shiftLeft_zero]
    rw [if_neg (by show ¬ ((sz - 1) &&& NOT1 > cap); omega)]
    simp only [Nat.sub_zero]
    rw [setUp_frame hgt 0 _ _ _ _ hres0 hm0]
    rw [listGetD_set_self _ _ _ _ (by omega)]
    by_cases hpar : (sz - 1) &&& 1 = 0
    · rw [if_pos hpar, if_pos hpar]
    · rw [if_neg hpar, if_neg hpar]
  · unfold FullFlatBinaryTree.pathAsserted
    dsimp only
    refine pathOk_setUp hgt hgt 0 _ _ _ (by omega) hres0 ?_ ?_ rfl
    · omega
    · rw [List.length_set, hlen2]
      omega

/-- Claim C7: shrinking the segment tree to a smaller nonzero size preserves
the occupancy value of the last surviving leaf (read before the truncation,
written back after it), and the summaries on the path from that leaf to the
new root are re-asserted: every parent on the path again carries the
conjunction of the bits of the node below it, so subsequent queries descend
through consistent summaries. -/
theorem c7_shrink_preserves_and_reasserts (t : FullFlatBinaryTree) (sz : Nat)
    (hcap : t.capacity = max (nextPow2 t.size) 2)
    (hpos : 0 < sz) (hlt : sz < t.size) :
    (t.resize sz).get_leaf (sz - 1) = t.get_leaf (sz - 1) ∧
    (t.resize sz).pathAsserted (sz - 1) = true := by
  obtain ⟨K, hK1, hKcap, hKh, hKsz⟩ := cap_pow sz
  obtain ⟨K0, _, hK0cap, _, hK0sz⟩ := cap_pow t.size
  have hsizecap : t.size ≤ t.capacity := by rw [hcap, hK0cap]; exact hK0sz
  have hne : ¬ (t.size = sz) := by omega
  have hcur_le : (sz - 1) &&& NOT1 ≤ sz - 1 := Nat.and_le_left
  have hszcape : sz ≤ max (nextPow2 sz) 2 := by rw [hKcap]; exact hKsz
  have hlast : t.get_leaf (sz - 1) =
      some ((FullFlatBinaryTree.get_leaf
        ⟨t.tree, ilog2 (max (nextPow2 sz) 2 >>> 1), sz, max (nextPow2 sz) 2⟩
        (sz - 1)).getD false) := by
    unfold FullFlatBinaryTree.get_leaf FullFlatBinaryTree.get
    dsimp only
    rw [Nat.shiftLeft_zero]
    rw [if_neg (show ¬ (sz ≤ sz - 1) from by omega)]
    rw [if_neg (show ¬ (t.size ≤ sz - 1) from by omega)]
    rw [if_neg (show ¬ ((sz - 1) &&& NOT1 > max (nextPow2 sz) 2) from by omega)]
    rw [if_neg (show ¬ ((sz - 1) &&& NOT1 > t.capacity) from by omega)]
    rw [Option.getD_some]
  have hmain := shrink_set_leaf_result
    (listResize (t.tree.take (sz - 1)) (max (nextPow2 sz) 2 - 1) default)
    (ilog2 (max (nextPow2 sz) 2 >>> 1)) sz (max (nextPow2 sz) 2)
    ((FullFlatBinaryTree.get_leaf
      ⟨t.tree, ilog2 (max (nextPow2 sz) 2 >>> 1), sz, max (nextPow2 sz) 2⟩
      (sz - 1)).getD false)
    hpos hszcape (listResize_length _ _ _)
    (by rw [hKh, hKcap]; congr 1; omega)
  unfold FullFlatBinaryTree.resize
  rw [if_neg hne]
  dsimp only
  rw [if_pos (show t.size > sz ∧ sz ≠ 0 from ⟨hlt, by omega⟩)]
  exact ⟨hmain.1.trans hlast.symm, hmain.2⟩

/-- Claim C7 witness: the theorem applied to the concrete size-8 tree
`c7tree` shrunk to size 3. -/
theorem c7_shrink_preserves_and_reasserts_witness :
    (c7tree.capacity = max (nextPow2 c7tree.size) 2 ∧ 0 < 3 ∧ 3 < c7tree.size) ∧
    ((c7tree.resize 3).get_leaf 2 = c7tree.get_leaf 2 ∧
      (c7tree.resize 3).pathAsserted 2 = true) :=
  ⟨⟨by decide, by decide, by decide⟩,
    c7_shrink_preserves_and_reasserts c7tree 3 (by decide) (by decide) (by decide)⟩

/-- Claim C2: after every public operation of an occupancy-index realization
every summary node exactly reflects the occupancy bits below it.  This fails
for `AcceleratedBitmap::resize`: after filling a bitmap of size 64 and
resizing it to 64 again, base word 0 is still all-ones but the layer-0
full-tracking bit for that word has been masked to 0, so the summary no
longer reflects its child word. -/
theorem c2_resize_breaks_summary :
    c2bitmap.base.getD 0 0 = MAXW ∧
    ((c2bitmap.accel_layers.getD 0 []).getD 0 0).testBit 0 = false := by
  decide

/-- Claim C3: the bitmap's `first_free` does not return the smallest free
index: with bits 0–32 of a size-34 bitmap occupied it returns index 32,
which is occupied (the free index 33 exists), because the base word is cast
to `u32` before `trailing_ones`.  Moreover, on a fully occupied bitmap of
size 3 it returns index 3 (an index ≥ size) instead of `none`. -/
theorem c3_first_free_wrong :
    c3bitmap.first_free = some 32 ∧ c3bitmap.is_set 32 = true ∧
    c3bitmap.is_set 33 = false ∧ c3bitmapFull.first_free = some 3 := by
  decide

/-- Claim C5 (counterexample): in Scenario C the defragmentation remap has
key set {4}, not {4, 2}, and the multiset of values at occupied indices is
{0, 2, 4}, not {0, 1, 2, 3, 4} (the released values 1 and 3 are gone). -/
theorem c5_counterexample :
    (Pond.defrag c5start).1 = [(4, 1)] ∧
    Pond.occValues (Pond.defrag c5start).2 = [0, 4, 2] ∧
    ¬ (Pond.occValues (Pond.defrag c5start).2).Perm [0, 1, 2, 3, 4] := by
  decide

/-- Claim C5 (amended): allocating 0,1,2,3,4 gives indices 0–4; releasing
indices 1 and 3 returns their values; `defrag` then returns the remap
{4 ↦ 1}, after which `next_index() = 3`, indices 0–2 are exactly the
occupied ones and the multiset of stored values is {0, 2, 4}. -/
theorem c5_scenario_defrag :
    c5insert.1 = [0, 1, 2, 3, 4] ∧
    (c5insert.2.free 1).1 = some 1 ∧ ((c5insert.2.free 1).2.free 3).1 = some 3 ∧
    (Pond.defrag c5start).1 = [(4, 1)] ∧
    Pond.next_index (Pond.defrag c5start).2 = 3 ∧
    Pond.occCount (Pond.defrag c5start).2 = 3 ∧
    Pond.occValues (Pond.defrag c5start).2 = [0, 4, 2] := by
  decide

/-- Claim C6: after `trim`, capacity should equal the popcount of the
occupancy bits before the call.  It does not: a pond with the 33 slots 0–32
occupied is trimmed to capacity 32, dropping the live value in slot 32,
because the `u32` cast in `first_free` reports the occupied index 32 as
free. -/
theorem c6_trim_capacity_mismatch :
    Pond.occCount c6start = 33 ∧ Pond.len c6start = 33 ∧
    (Pond.trim c6start).2.len = 32 ∧ Pond.occCount (Pond.trim c6start).2 = 32 := by
  decide

/-- Claim C1 (counterexample): from the empty pool, `insert 7` followed by
`free` of the returned index 0 returns `some 7`, but the pool is not
bit-for-bit equal to the empty pool: the allocation grew the capacity to 1
and the release does not shrink it. -/
theorem c1_counterexample :
    (Pond.free ((Pond.new : Pond Nat).insert 7).2 0).1 = some 7 ∧
    (Pond.free ((Pond.new : Pond Nat).insert 7).2 0).2 ≠ (Pond.new : Pond Nat) := by
  decide

/-- Claim C4 (counterexample): the tree stores only subtree-fullness bits,
and the `get_last_full_leaf` sketched in the source (commented out) is not a
`find_last_occupied`: on a size-4 tree whose only occupied leaf is 2 it
returns `none` although the largest occupied index is 2. -/
theorem c4_counterexample :
    FullFlatBinaryTree.get_last_full_leaf c4tree = none ∧
    FullFlatBinaryTree.get_leaf c4tree 2 = some true := by
  decide

theorem shiftRight_le_self (n k : Nat) : n >>> k ≤ n := by
  rw [Nat.shiftRight_eq_div_pow]
  exact Nat.div_le_self n (2 ^ k)

theorem setLayersChecked_eq (layers : List (List Nat)) :
    ∀ (idx : Nat) (f e : Bool), (∀ l ∈ layers, idx < l.length) →
      Pond.setLayersChecked layers idx f e =
        some (AcceleratedBitmap.setLayers layers idx f e) := by
  induction layers with
  | nil => intro idx f e _; rfl
  | cons layer rest ih =>
    intro idx f e hb
    have h1 : idx >>> 5 < layer.length :=
      lt_of_le_of_lt (shiftRight_le_self idx 5) (hb layer (List.mem_cons_self layer rest))
    unfold Pond.setLayersChecked
    unfold AcceleratedBitmap.setLayers
    dsimp only
    rw [if_pos h1]
    rw [ih (idx >>> 5) _ _ (fun l hl =>
      lt_of_le_of_lt (shiftRight_le_self idx 5) (hb l (List.mem_cons_of_mem layer hl)))]
    rfl

theorem set_checked_eq (b : AcceleratedBitmap) (i len : Nat) (v : Bool)
    (hwf : b.wf len = true) (hi : i < len) :
    Pond.set_checked b i v = some (b.set i v) := by
  obtain ⟨hblen, _, hlay⟩ := wf_parts b len hwf
  have hwidx : i >>> 6 < b.base.length := widx_lt_base b i len hwf hi
  unfold Pond.set_checked AcceleratedBitmap.set
  dsimp only
  rw [if_pos hwidx]
  rw [setLayersChecked_eq b.accel_layers (i >>> 6) _ _ (fun l hl => by
    rw [(hlay l hl).1]
    have h6 : i >>> 6 ≤ i := shiftRight_le_self i 6
    omega)]
  rfl

/-- Claim C8: `release(i)` (`Pond::free`) returns `Some` holding the stored
value exactly when slot `i` was occupied before the call, leaving the slot
free and the storage untouched; on a double free or an out-of-range index it
returns `None` with the pool unchanged.  On a well-formed pool the
panic-observing model agrees, so the outcome is always a value, never a
panic. -/
theorem c8_release_semantics (α : Type) (p : Pond α) (idx : Nat)
    (hwf : p.wf = true) (hinv : p.dataInv = true) :
    Pond.free_checked p idx = some (Pond.free p idx) ∧
    ((Pond.free p idx).1.isSome = p.is_occupied idx) ∧
    (p.is_occupied idx = true →
      (Pond.free p idx).1 = p.data.getD idx none ∧
      Pond.is_occupied (Pond.free p idx).2 idx = false ∧
      (Pond.free p idx).2.data = p.data) ∧
    (p.is_occupied idx = false → Pond.free p idx = (none, p)) := by
  have hwf' : p.bitmap.wf p.len = true := hwf
  by_cases hocc : p.is_occupied idx = true
  · have hlen : idx < p.data.length := by
      by_contra hge
      unfold Pond.is_occupied at hocc
      rw [if_neg hge] at hocc
      exact Bool.false_ne_true hocc
    have hset : p.bitmap.is_set idx = true := by
      unfold Pond.is_occupied at hocc
      rwa [if_pos hlen] at hocc
    have hwidx : idx >>> 6 < p.bitmap.base.length := widx_lt_base p.bitmap idx p.len hwf' hlen
    have hfr : Pond.free p idx =
        (p.data.getD idx none, ⟨p.data, p.bitmap.set idx false⟩) := by
      unfold Pond.free
      rw [hocc, if_pos rfl]
    have hchk : Pond.free_checked p idx = some (Pond.free p idx) := by
      unfold Pond.free_checked Pond.is_occupied_checked AcceleratedBitmap.is_set_checked
      rw [if_pos hlen, if_pos hwidx, hset]
      dsimp only
      rw [set_checked_eq p.bitmap idx p.len false hwf' hlen, Option.map_some', hfr]
    have hsome : (p.data.getD idx none).isSome = true := by
      simp only [Pond.dataInv, List.all_eq_true, List.mem_range] at hinv
      have := hinv idx hlen
      rw [hocc] at this
      simpa using this
    refine ⟨hchk, ?_, fun _ => ⟨?_, ?_, ?_⟩, fun hc => absurd hocc (by rw [hc]; simp)⟩
    · rw [hfr, hocc]
      exact hsome
    · rw [hfr]
    · rw [hfr]
      unfold Pond.is_occupied
      dsimp only
      rw [if_pos hlen]
      exact is_set_set_false p.bitmap idx hwidx
    · rw [hfr]
  · have hocc' : p.is_occupied idx = false := by
      cases h : p.is_occupied idx
      · rfl
      · exact absurd h hocc
    have hfr : Pond.free p idx = (none, p) := by
      unfold Pond.free
      rw [hocc', if_neg Bool.false_ne_true]
    have hchk : Pond.free_checked p idx = some (none, p) := by
      unfold Pond.free_checked Pond.is_occupied_checked
      by_cases hlen : idx < p.data.length
      · have hwidx : idx >>> 6 < p.bitmap.base.length :=
          widx_lt_base p.bitmap idx p.len hwf' hlen
        have hset : p.bitmap.is_set idx = false := by
          unfold Pond.is_occupied at hocc'
          rwa [if_pos hlen] at hocc'
        unfold AcceleratedBitmap.is_set_checked
        rw [if_pos hlen, if_pos hwidx, hset]
      · rw [if_neg hlen]
    refine ⟨by rw [hchk, hfr], ?_, fun hc => absurd hc hocc, fun _ => hfr⟩
    rw [hfr, hocc']
    rfl

/-- Claim C8 witness: the theorem applied to the concrete pool `c1pond` at
its occupied slot 1 and at the free slot 0. -/
theorem c8_release_semantics_witness :
    (Pond.wf c1pond = true ∧ Pond.dataInv c1pond = true) ∧
    Pond.free_checked c1pond 1 = some (Pond.free c1pond 1) ∧
    (Pond.free c1pond 1).1 = some 20 ∧
    Pond.is_occupied (Pond.free c1pond 1).2 1 = false ∧
    Pond.free c1pond 0 = (none, c1pond) :=
  ⟨⟨by decide, by decide⟩,
    (c8_release_semantics Nat c1pond 1 (by decide) (by decide)).1,
    by decide,
    ((c8_release_semantics Nat c1pond 1 (by decide) (by decide)).2.2.1 (by decide)).2.1,
    (c8_release_semantics Nat c1pond 0 (by decide) (by decide)).2.2.2 (by decide)⟩

/-- Claim C4 (amended): each `Node` records a single boolean per child —
whether that child's subtree is completely full — and no last-occupied query
is provided; the commented-out `get_last_full_leaf` descends on those
fullness bits, so whenever the root node records neither side as full it
returns `none` regardless of which leaves are occupied. -/
theorem c4_fullness_descent_blind (t : FullFlatBinaryTree)
    (hh : 0 < t.height)
    (hroot : t.tree.getD ((1 <<< t.height) - 1) default = ⟨false, false⟩) :
    t.get_last_full_leaf = none := by
  obtain ⟨i, hi⟩ : ∃ i, t.height = i + 1 := ⟨t.height - 1, by omega⟩
  unfold FullFlatBinaryTree.get_last_full_leaf
  rw [hi] at hroot ⊢
  have hstep : FullFlatBinaryTree.gllfAux t.tree ((1 <<< (i + 1)) - 1) (i + 1) = none := by
    unfold FullFlatBinaryTree.gllfAux
    rw [hroot]
    simp
  rw [hstep]

/-- Claim C4 witness: the amended theorem applied to the size-4 tree whose
only occupied leaf is 2. -/
theorem c4_fullness_descent_blind_witness :
    (0 < c4tree.height ∧
      c4tree.tree.getD ((1 <<< c4tree.height) - 1) default = ⟨false, false⟩) ∧
    c4tree.get_last_full_leaf = none :=
  ⟨⟨by decide, by decide⟩, c4_fullness_descent_blind c4tree (by decide) (by decide)⟩

/-- Claim C9: when a reference-count modification would overflow or
underflow, `modify_ref` reports `OverUnder` without updating the count, and
`NodeField::add_ref` surfaces it as `OperationFailed` with the whole field —
including the reference count — unchanged. -/
theorem c9_refcount_overflow_confined :
    (∀ (current : Nat) (delta : Int),
      ((delta < 0 ∧ current < delta.natAbs) ∨
        (0 ≤ delta ∧ USIZE_MAX < current + delta.toNat)) →
      modify_ref current delta = Except.error ReferenceError.OverUnder) ∧
    (∀ (α : Type) (nf : NodeField α) (idx : Nat) (d : α),
      nf.memory.getD idx (MemorySlot.Free 0) = MemorySlot.Occupied d USIZE_MAX →
      nf.add_ref idx = (Except.error AccessError.OperationFailed, nf)) := by
  constructor
  · intro current delta h
    unfold modify_ref
    rcases h with ⟨hneg, hlt⟩ | ⟨hpos, hlt⟩
    · rw [if_pos hneg, if_neg (by omega)]
    · rw [if_neg (by omega), if_neg (by omega)]
  · intro α nf idx d hslot
    have hidx : idx < nf.memory.length := by
      by_contra hge
      rw [List.getD_eq_default _ _ (by omega)] at hslot
      exact MemorySlot.noConfusion hslot
    unfold NodeField.add_ref
    rw [if_neg (by omega), hslot]
    have hover : modify_ref USIZE_MAX 1 = Except.error ReferenceError.OverUnder := by
      unfold modify_ref
      rw [if_neg (by omega), if_neg (by simp [USIZE_MAX, MAXW])]
    dsimp only
    rw [hover]

/-- Claim C9 witness: the theorem applied to an increment of a saturated
count and to the concrete one-slot field `c9field`. -/
theorem c9_refcount_overflow_confined_witness :
    ((0 : Int) ≤ 1 ∧ USIZE_MAX < USIZE_MAX + (1 : Int).toNat) ∧
    (c9field.memory.getD 0 (MemorySlot.Free 0) = MemorySlot.Occupied 37 USIZE_MAX) ∧
    modify_ref USIZE_MAX 1 = Except.error ReferenceError.OverUnder ∧
    c9field.add_ref 0 = (Except.error AccessError.OperationFailed, c9field) :=
  ⟨by decide, by decide,
    c9_refcount_overflow_confined.1 USIZE_MAX 1 (Or.inr (by decide)),
    c9_refcount_overflow_confined.2 Nat c9field 0 37 (by decide)⟩

/-- Claim C10: for any index at or beyond the pool's length, `is_occupied`
answers `false` without consulting the bitmap (the answer is the same for
every bitmap), so `get`, `get_mut` and `free` all return `None` and leave
the pool untouched — although the underlying bitmap accessor itself, given a
word index beyond its base vector, panics (modelled as `none`). -/
theorem c10_out_of_range_guard (α : Type) (data : List (Option α))
    (b b' : AcceleratedBitmap) (idx : Nat) (h : data.length ≤ idx) :
    Pond.is_occupied ⟨data, b⟩ idx = false ∧
    Pond.is_occupied ⟨data, b⟩ idx = Pond.is_occupied ⟨data, b'⟩ idx ∧
    Pond.get ⟨data, b⟩ idx = none ∧
    Pond.get_mut ⟨data, b⟩ idx = none ∧
    Pond.free ⟨data, b⟩ idx = (none, ⟨data, b⟩) ∧
    (b.base.length ≤ idx >>> 6 → AcceleratedBitmap.is_set_checked b idx = none) := by
  have hocc : ∀ bb : AcceleratedBitmap, Pond.is_occupied ⟨data, bb⟩ idx = false := by
    intro bb
    unfold Pond.is_occupied
    rw [if_neg (by simpa using Nat.not_lt.mpr h)]
  refine ⟨hocc b, by rw [hocc b, hocc b'], ?_, ?_, ?_, ?_⟩
  · unfold Pond.get
    rw [hocc b]
    simp
  · unfold Pond.get_mut
    rw [hocc b]
    simp
  · unfold Pond.free
    rw [hocc b]
    simp
  · intro hb
    unfold AcceleratedBitmap.is_set_checked
    rw [if_neg (by omega)]

/-- Claim C10 witness: the theorem applied to the empty data vector, an
empty-base bitmap and index 0. -/
theorem c10_out_of_range_guard_witness :
    (([] : List (Option Nat)).length ≤ 0) ∧
    Pond.is_occupied (⟨[], AcceleratedBitmap.new 3⟩ : Pond Nat) 0 = false ∧
    Pond.get (⟨[], AcceleratedBitmap.new 3⟩ : Pond Nat) 0 = none ∧
    Pond.free (⟨[], AcceleratedBitmap.new 3⟩ : Pond Nat) 0 =
      (none, ⟨[], AcceleratedBitmap.new 3⟩) ∧
    AcceleratedBitmap.is_set_checked (AcceleratedBitmap.new 3) 0 = none := by
  have h := c10_out_of_range_guard Nat [] (AcceleratedBitmap.new 3)
    ((AcceleratedBitmap.new 3).resize 5) 0 (by decide)
  exact ⟨by decide, h.1, h.2.2.1, h.2.2.2.2.1, h.2.2.2.2.2 (by decide)⟩

end Lilypads
